import Mathlib

/-!
Shallow embedding of the real-time collaboration hub of
`src/backend/src/services/websocketService.ts` (class `WebSocketService`),
together with theorems settling the frozen claims about it.

The hub keeps three pieces of state:
* `connectedUsers : Map<string, ConnectedUser>` — the connection table;
* `noteRooms : Map<string, Set<string>>` — noteId to member socket ids;
* the socket.io room membership (`socket.join` / `socket.leave` /
  automatic leave-all on disconnect), which the code uses for delivery
  via `socket.to('note:' + id).emit(...)`.

JS `Map` and `Set` preserve insertion order, so both are embedded as
association lists / duplicate-free lists with order-preserving update.
`Date.now()` and the random colour pick are passed in as parameters.
-/

namespace NotesApp

/-- `ConnectedUser` record from the source (interface `ConnectedUser`). -/
structure ConnectedUser where
  socketId : String
  userId : String
  userName : String
  noteId : Option String
  color : String
  lastActivity : Nat
deriving DecidableEq, Repr

/-- `NoteUpdateData` payload from the source. -/
structure NoteUpdateData where
  noteId : String
  userId : String
  content : String
  timestamp : Nat
  cursor : Option Nat
deriving DecidableEq, Repr

/-- `CursorData` payload from the source. -/
structure CursorData where
  noteId : String
  userId : String
  userName : String
  position : Nat
  color : String
deriving DecidableEq, Repr

/-- `SelectionData` payload from the source. -/
structure SelectionData where
  noteId : String
  userId : String
  userName : String
  selStart : Nat
  selEnd : Nat
  color : String
deriving DecidableEq, Repr

/-- `TypingData` payload from the source. -/
structure TypingData where
  noteId : String
  userId : String
  userName : String
  isTyping : Bool
deriving DecidableEq, Repr

/-- The `{...data, userId, userName}` shape broadcast by `handleNoteUpdate`
(the spread adds a `userName` field to `NoteUpdateData`). -/
structure NoteUpdateOut where
  noteId : String
  userId : String
  userName : String
  content : String
  timestamp : Nat
  cursor : Option Nat
deriving DecidableEq, Repr

/-- The `{userId, userName, color}` tuples built by `getActiveUsersInNote`. -/
structure ActiveUser where
  userId : String
  userName : String
  color : String
deriving DecidableEq, Repr

/-- Outbound socket messages emitted by the hub. -/
inductive OutMsg where
  | authenticated (color : String)
  | userJoined (u : ActiveUser)
  | noteUsers (users : List ActiveUser)
  | userLeft (userId userName : String)
  | noteUpdate (d : NoteUpdateOut)
  | noteCursor (d : CursorData)
  | noteSelection (d : SelectionData)
  | userTyping (d : TypingData)
deriving DecidableEq, Repr

/-- Insertion-order map update (`Map.set`): replace in place or append. -/
def mapSet {α : Type} (m : List (String × α)) (k : String) (v : α) :
    List (String × α) :=
  match m with
  | [] => [(k, v)]
  | (k', v') :: rest =>
      if k' = k then (k, v) :: rest else (k', v') :: mapSet rest k v

/-- Map lookup (`Map.get`): first matching key. -/
def mapGet {α : Type} (m : List (String × α)) (k : String) : Option α :=
  match m with
  | [] => none
  | (k', v) :: rest => if k' = k then some v else mapGet rest k

/-- Map removal (`Map.delete`). -/
def mapDelete {α : Type} (m : List (String × α)) (k : String) :
    List (String × α) :=
  match m with
  | [] => []
  | (k', v) :: rest =>
      if k' = k then mapDelete rest k else (k', v) :: mapDelete rest k

/-- Insertion-order set insert (`Set.add`): append if absent. -/
def setAdd (s : List String) (x : String) : List String :=
  if x ∈ s then s else s ++ [x]

/-- Set removal (`Set.delete`). -/
def setDelete (s : List String) (x : String) : List String :=
  match s with
  | [] => []
  | y :: rest => if y = x then setDelete rest x else y :: setDelete rest x

/-- The hub's mutable state: the two explicit maps of the class plus the
socket.io room membership the code relies on for delivery. -/
structure HubState where
  connectedUsers : List (String × ConnectedUser)
  noteRooms : List (String × List String)
  sioRooms : List (String × List String)
deriving DecidableEq, Repr

/-- Members recorded for a note in `noteRooms` (missing key reads as empty,
as in `this.noteRooms.get(noteId) || new Set()`). -/
def membersOf (st : HubState) (noteId : String) : List String :=
  (mapGet st.noteRooms noteId).getD []

/-- Members of a socket.io room (missing room is empty). -/
def sioMembers (sio : List (String × List String)) (noteId : String) :
    List String :=
  (mapGet sio noteId).getD []

/-- Recipients of `socket.to('note:' + noteId).emit(...)`: the socket.io
room's members minus the sender. -/
def socketTo (sio : List (String × List String)) (noteId sender : String) :
    List String :=
  setDelete (sioMembers sio noteId) sender

/-- `socket.join('note:' + noteId)`. -/
def sioJoin (sio : List (String × List String)) (noteId sid : String) :
    List (String × List String) :=
  mapSet sio noteId (setAdd (sioMembers sio noteId) sid)

/-- `socket.leave('note:' + noteId)` (no-op on an unknown room). -/
def sioLeave (sio : List (String × List String)) (noteId sid : String) :
    List (String × List String) :=
  match mapGet sio noteId with
  | none => sio
  | some s => mapSet sio noteId (setDelete s sid)

/-- socket.io removes a disconnected socket from every room it was in
before the `disconnect` handler runs. -/
def sioLeaveAll (sio : List (String × List String)) (sid : String) :
    List (String × List String) :=
  sio.map (fun p => (p.1, setDelete p.2 sid))

/-- The for-loop body of `getActiveUsersInNote`: look each socket id up in
the connection table and keep the `{userId, userName, color}` tuples of
those that have a record. -/
def rosterLoop (users : List (String × ConnectedUser)) :
    List String → List ActiveUser
  | [] => []
  | sid :: rest =>
      match mapGet users sid with
      | some u => ⟨u.userId, u.userName, u.color⟩ :: rosterLoop users rest
      | none => rosterLoop users rest

/-- `WebSocketService.getActiveUsersInNote`. -/
def getActiveUsersInNote (st : HubState) (noteId : String) :
    List ActiveUser :=
  rosterLoop st.connectedUsers (membersOf st noteId)

/-- `WebSocketService.getUsersInNote`: map each member id to its record and
drop the undefined ones. -/
def getUsersInNote (st : HubState) (noteId : String) : List ConnectedUser :=
  ((membersOf st noteId).map (fun sid => mapGet st.connectedUsers sid)).reduceOption

/-- `WebSocketService.handleAuthentication` (colour choice and `Date.now()`
are parameters). -/
def handleAuthentication (st : HubState)
    (sid userId userName color : String) (now : Nat) :
    HubState × List (String × OutMsg) :=
  let user : ConnectedUser := ⟨sid, userId, userName, none, color, now⟩
  ({ st with connectedUsers := mapSet st.connectedUsers sid user },
   [(sid, .authenticated color)])

/-- `WebSocketService.handleNoteJoin`. -/
def handleNoteJoin (st : HubState) (sid noteId : String) (now : Nat) :
    HubState × List (String × OutMsg) :=
  match mapGet st.connectedUsers sid with
  | none => (st, [])
  | some user =>
      let sio := sioJoin st.sioRooms noteId sid
      let users := mapSet st.connectedUsers sid
        { user with noteId := some noteId, lastActivity := now }
      let rooms0 :=
        if (mapGet st.noteRooms noteId).isSome then st.noteRooms
        else mapSet st.noteRooms noteId []
      let rooms :=
        mapSet rooms0 noteId (setAdd ((mapGet rooms0 noteId).getD []) sid)
      let st' : HubState := ⟨users, rooms, sio⟩
      let activeUsers := getActiveUsersInNote st' noteId
      ((st' : HubState),
       (socketTo sio noteId sid).map
          (fun r => (r, OutMsg.userJoined ⟨user.userId, user.userName, user.color⟩))
        ++ [(sid, OutMsg.noteUsers activeUsers)])

/-- `WebSocketService.handleNoteLeave`. -/
def handleNoteLeave (st : HubState) (sid noteId : String) :
    HubState × List (String × OutMsg) :=
  match mapGet st.connectedUsers sid with
  | none => (st, [])
  | some user =>
      let sio := sioLeave st.sioRooms noteId sid
      let users := mapSet st.connectedUsers sid { user with noteId := none }
      let rooms :=
        match mapGet st.noteRooms noteId with
        | none => st.noteRooms
        | some s => mapSet st.noteRooms noteId (setDelete s sid)
      ((⟨users, rooms, sio⟩ : HubState),
       (socketTo sio noteId sid).map
         (fun r => (r, OutMsg.userLeft user.userId user.userName)))

/-- `WebSocketService.handleNoteUpdate`. -/
def handleNoteUpdate (st : HubState) (sid : String) (data : NoteUpdateData)
    (now : Nat) : HubState × List (String × OutMsg) :=
  match mapGet st.connectedUsers sid with
  | none => (st, [])
  | some user =>
      let users := mapSet st.connectedUsers sid { user with lastActivity := now }
      ((⟨users, st.noteRooms, st.sioRooms⟩ : HubState),
       (socketTo st.sioRooms data.noteId sid).map
         (fun r => (r, OutMsg.noteUpdate
            ⟨data.noteId, user.userId, user.userName,
             data.content, data.timestamp, data.cursor⟩)))

/-- `WebSocketService.handleCursorUpdate`. -/
def handleCursorUpdate (st : HubState) (sid : String) (data : CursorData) :
    HubState × List (String × OutMsg) :=
  match mapGet st.connectedUsers sid with
  | none => (st, [])
  | some user =>
      (st,
       (socketTo st.sioRooms data.noteId sid).map
         (fun r => (r, OutMsg.noteCursor
            { data with userId := user.userId, userName := user.userName,
                        color := user.color })))

/-- `WebSocketService.handleSelectionUpdate`. -/
def handleSelectionUpdate (st : HubState) (sid : String)
    (data : SelectionData) : HubState × List (String × OutMsg) :=
  match mapGet st.connectedUsers sid with
  | none => (st, [])
  | some user =>
      (st,
       (socketTo st.sioRooms data.noteId sid).map
         (fun r => (r, OutMsg.noteSelection
            { data with userId := user.userId, userName := user.userName,
                        color := user.color })))

/-- `WebSocketService.handleTypingIndicator`. -/
def handleTypingIndicator (st : HubState) (sid : String)
    (data : TypingData) : HubState × List (String × OutMsg) :=
  match mapGet st.connectedUsers sid with
  | none => (st, [])
  | some user =>
      (st,
       (socketTo st.sioRooms data.noteId sid).map
         (fun r => (r, OutMsg.userTyping
            { data with userId := user.userId, userName := user.userName })))

/-- `WebSocketService.handleUserActivity`. -/
def handleUserActivity (st : HubState) (sid : String) (now : Nat) :
    HubState × List (String × OutMsg) :=
  match mapGet st.connectedUsers sid with
  | none => (st, [])
  | some user =>
      let users := mapSet st.connectedUsers sid { user with lastActivity := now }
      ({ st with connectedUsers := users }, [])

/-- `WebSocketService.handleDisconnect`; socket.io has already removed the
socket from all of its rooms when the handler runs. The guard
`if (user && user.noteId)` uses JS truthiness: it is false both when
`noteId` is `undefined` and when it is the empty string, so in those two
cases neither the `user:left` emit nor the room-set removal happens. -/
def handleDisconnect (st : HubState) (sid : String) :
    HubState × List (String × OutMsg) :=
  let sio := sioLeaveAll st.sioRooms sid
  match mapGet st.connectedUsers sid with
  | some user =>
      match user.noteId with
      | some nid =>
          if nid = "" then
            ((⟨mapDelete st.connectedUsers sid, st.noteRooms, sio⟩ :
              HubState), [])
          else
            let sends := (socketTo sio nid sid).map
              (fun r => (r, OutMsg.userLeft user.userId user.userName))
            let rooms :=
              match mapGet st.noteRooms nid with
              | none => st.noteRooms
              | some s => mapSet st.noteRooms nid (setDelete s sid)
            ((⟨mapDelete st.connectedUsers sid, rooms, sio⟩ : HubState),
             sends)
      | none =>
          ((⟨mapDelete st.connectedUsers sid, st.noteRooms, sio⟩ :
            HubState), [])
  | none =>
      ((⟨mapDelete st.connectedUsers sid, st.noteRooms, sio⟩ : HubState), [])

/-- One iteration of the `cleanupInactiveConnections` loop, acting on the
entry `(socketId, user)` read from the connection table. The guard
`if (user.noteId)` uses JS truthiness: the room-set removal is skipped
both when `noteId` is `undefined` and when it is the empty string. -/
def cleanupStep (now timeoutMs : Nat) (st : HubState)
    (entry : String × ConnectedUser) : HubState :=
  if timeoutMs < now - entry.2.lastActivity then
    let users := mapDelete st.connectedUsers entry.1
    let rooms :=
      match entry.2.noteId with
      | some nid =>
          if nid = "" then st.noteRooms
          else
            match mapGet st.noteRooms nid with
            | none => st.noteRooms
            | some s => mapSet st.noteRooms nid (setDelete s entry.1)
      | none => st.noteRooms
    (⟨users, rooms, st.sioRooms⟩ : HubState)
  else st

/-- `WebSocketService.cleanupInactiveConnections` (emits nothing; the code
only deletes from its own tracking maps). -/
def cleanupInactiveConnections (st : HubState) (timeoutMs now : Nat) :
    HubState :=
  st.connectedUsers.foldl (cleanupStep now timeoutMs) st

/-- The hub's operations, for reachability statements. -/
inductive HubOp where
  | authenticate (sid userId userName color : String) (now : Nat)
  | join (sid noteId : String) (now : Nat)
  | leave (sid noteId : String)
  | update (sid : String) (d : NoteUpdateData) (now : Nat)
  | cursor (sid : String) (d : CursorData)
  | selection (sid : String) (d : SelectionData)
  | typing (sid : String) (d : TypingData)
  | activity (sid : String) (now : Nat)
  | disconnect (sid : String)
  | sweep (timeoutMs now : Nat)
deriving DecidableEq, Repr

/-- Dispatch one operation to its handler. -/
def applyOp (st : HubState) (op : HubOp) : HubState × List (String × OutMsg) :=
  match op with
  | .authenticate sid uid un color now => handleAuthentication st sid uid un color now
  | .join sid nid now => handleNoteJoin st sid nid now
  | .leave sid nid => handleNoteLeave st sid nid
  | .update sid d now => handleNoteUpdate st sid d now
  | .cursor sid d => handleCursorUpdate st sid d
  | .selection sid d => handleSelectionUpdate st sid d
  | .typing sid d => handleTypingIndicator st sid d
  | .activity sid now => handleUserActivity st sid now
  | .disconnect sid => handleDisconnect st sid
  | .sweep timeoutMs now => cleanupInactiveConnections st timeoutMs now |> (fun s => (s, []))

/-- The empty hub (process start). -/
def initState : HubState := ⟨[], [], []⟩

/-- Run a sequence of operations from a state. -/
def runOps (st : HubState) (ops : List HubOp) : HubState :=
  ops.foldl (fun s op => (applyOp s op).1) st

/-- Recognise a `user:left` message. -/
def isUserLeftMsg : OutMsg → Bool
  | .userLeft _ _ => true
  | _ => false

/-- The rooms whose recorded member set contains `sid`. -/
def memberRoomsList (st : HubState) (sid : String) : List String :=
  (st.noteRooms.filter (fun p => p.2.contains sid)).map Prod.fst

/-- Auxiliary invariant: every recorded room member has a connection record
whose current note is that very room. -/
def GoodState (st : HubState) : Prop :=
  ∀ r sid, sid ∈ membersOf st r →
    ∃ u, mapGet st.connectedUsers sid = some u ∧ u.noteId = some r

/-- The connection table has duplicate-free keys (true of every state the
hub can build, since `Map.set` replaces in place). -/
def WFKeys (st : HubState) : Prop :=
  (st.connectedUsers.map Prod.fst).Nodup

/-- A step is `good` when it does not authenticate a connection that is
still in some room's member set, does not join or leave relative to a
room while the connection is a member of a different room, and never
joins the room named by the empty string (which the disconnect and sweep
guards treat as falsy and so never clean up). -/
def goodStepB (st : HubState) (op : HubOp) : Bool :=
  match op with
  | .authenticate sid _ _ _ _ => (memberRoomsList st sid).isEmpty
  | .join sid nid _ =>
      nid != "" && (memberRoomsList st sid).all (fun r => r == nid)
  | .leave sid nid => (memberRoomsList st sid).all (fun r => r == nid)
  | _ => true

/-- A sequence of operations all of whose steps are good. -/
def goodSeqB : HubState → List HubOp → Bool
  | _, [] => true
  | st, op :: ops => goodStepB st op && goodSeqB (applyOp st op).1 ops

/-! ## Basic lemmas about the map and set embeddings -/

theorem mapGet_mapSet_self {α : Type} (m : List (String × α)) (k : String)
    (v : α) : mapGet (mapSet m k v) k = some v := by
  induction m with
  | nil => simp [mapSet, mapGet]
  | cons p rest ih =>
      obtain ⟨k', v'⟩ := p
      by_cases h : k' = k
      · simp [mapSet, mapGet, h]
      · simp [mapSet, mapGet, h, ih]

theorem mapGet_mapSet_ne {α : Type} (m : List (String × α)) (k k' : String)
    (v : α) (h : k' ≠ k) : mapGet (mapSet m k v) k' = mapGet m k' := by
  induction m with
  | nil => simp [mapSet, mapGet, Ne.symm h]
  | cons p rest ih =>
      obtain ⟨a, b⟩ := p
      by_cases ha : a = k
      · simp [mapSet, mapGet, ha, Ne.symm h]
      · simp [mapSet, mapGet, ha, ih]

theorem mapGet_mapDelete_self {α : Type} (m : List (String × α))
    (k : String) : mapGet (mapDelete m k) k = none := by
  induction m with
  | nil => simp [mapDelete, mapGet]
  | cons p rest ih =>
      obtain ⟨a, b⟩ := p
      by_cases ha : a = k
      · simpa [mapDelete, ha] using ih
      · simp [mapDelete, mapGet, ha, ih]

theorem mapGet_mapDelete_ne {α : Type} (m : List (String × α))
    (k k' : String) (h : k' ≠ k) :
    mapGet (mapDelete m k) k' = mapGet m k' := by
  induction m with
  | nil => simp [mapDelete, mapGet]
  | cons p rest ih =>
      obtain ⟨a, b⟩ := p
      by_cases ha : a = k
      · simp [mapDelete, mapGet, ha, Ne.symm h, ih]
      · simp [mapDelete, mapGet, ha, ih]

theorem mapGet_mapDelete_of_none {α : Type} (m : List (String × α))
    (k k' : String) (h : mapGet m k' = none) :
    mapGet (mapDelete m k) k' = none := by
  by_cases hk : k' = k
  · subst hk; exact mapGet_mapDelete_self m k'
  · rw [mapGet_mapDelete_ne m k k' hk]; exact h

theorem mapDelete_of_get_none {α : Type} (m : List (String × α))
    (k : String) (h : mapGet m k = none) : mapDelete m k = m := by
  induction m with
  | nil => rfl
  | cons p rest ih =>
      obtain ⟨a, b⟩ := p
      by_cases ha : a = k
      · simp [mapGet, ha] at h
      · simp only [mapGet, if_neg ha] at h
        simp [mapDelete, ha, ih h]

theorem mapSet_of_get_eq {α : Type} (m : List (String × α)) (k : String)
    (v : α) (h : mapGet m k = some v) : mapSet m k v = m := by
  induction m with
  | nil => simp [mapGet] at h
  | cons p rest ih =>
      obtain ⟨a, b⟩ := p
      by_cases ha : a = k
      · simp [mapGet, ha] at h
        simp [mapSet, ha, h]
      · simp [mapGet, ha] at h
        simp [mapSet, ha, ih h]

theorem mapGet_mem {α : Type} (m : List (String × α)) (k : String) (v : α)
    (h : mapGet m k = some v) : (k, v) ∈ m := by
  induction m with
  | nil => simp [mapGet] at h
  | cons p rest ih =>
      obtain ⟨a, b⟩ := p
      by_cases ha : a = k
      · subst ha
        simp [mapGet] at h
        simp [h]
      · simp [mapGet, ha] at h
        exact List.mem_cons_of_mem _ (ih h)

theorem mem_setAdd (s : List String) (x y : String) :
    y ∈ setAdd s x ↔ y ∈ s ∨ y = x := by
  unfold setAdd
  by_cases h : x ∈ s
  · rw [if_pos h]
    constructor
    · exact Or.inl
    · rintro (hy | rfl)
      · exact hy
      · exact h
  · rw [if_neg h]
    simp

theorem mem_setDelete (s : List String) (x y : String) :
    y ∈ setDelete s x ↔ y ∈ s ∧ y ≠ x := by
  induction s with
  | nil => simp [setDelete]
  | cons a rest ih =>
      by_cases ha : a = x
      · subst ha
        rw [show setDelete (a :: rest) a = setDelete rest a from by
              simp [setDelete]]
        rw [ih, List.mem_cons]
        constructor
        · rintro ⟨hy, hne⟩
          exact ⟨Or.inr hy, hne⟩
        · rintro ⟨hya, hne⟩
          rcases hya with rfl | hy
          · exact absurd rfl hne
          · exact ⟨hy, hne⟩
      · simp only [setDelete, if_neg ha, List.mem_cons, ih]
        constructor
        · rintro (rfl | ⟨hy, hne⟩)
          · exact ⟨Or.inl rfl, ha⟩
          · exact ⟨Or.inr hy, hne⟩
        · rintro ⟨hya, hne⟩
          rcases hya with rfl | hy
          · exact Or.inl rfl
          · exact Or.inr ⟨hy, hne⟩

theorem setDelete_of_not_mem (s : List String) (x : String) (h : x ∉ s) :
    setDelete s x = s := by
  induction s with
  | nil => rfl
  | cons a rest ih =>
      have ha : a ≠ x := by
        rintro rfl; exact h (List.mem_cons_self a rest)
      have hrest : x ∉ rest := fun hx => h (List.mem_cons_of_mem a hx)
      simp only [setDelete, if_neg ha]
      rw [ih hrest]

theorem setDelete_idem (s : List String) (x : String) :
    setDelete (setDelete s x) x = setDelete s x := by
  apply setDelete_of_not_mem
  simp [mem_setDelete]

theorem sioLeaveAll_idem (m : List (String × List String)) (sid : String) :
    sioLeaveAll (sioLeaveAll m sid) sid = sioLeaveAll m sid := by
  unfold sioLeaveAll
  rw [List.map_map]
  apply List.map_congr_left
  intro p _
  simp [setDelete_idem]

theorem mapSet_keys {α : Type} (m : List (String × α)) (k : String)
    (v : α) :
    (mapSet m k v).map Prod.fst =
      if k ∈ m.map Prod.fst then m.map Prod.fst
      else m.map Prod.fst ++ [k] := by
  induction m with
  | nil => simp [mapSet]
  | cons p rest ih =>
      obtain ⟨a, b⟩ := p
      by_cases ha : a = k
      · subst ha
        simp [mapSet]
      · by_cases hk : k ∈ rest.map Prod.fst
        · simp [mapSet, ha, ih, hk, Ne.symm ha]
        · simp [mapSet, ha, ih, hk, Ne.symm ha]

theorem nodupKeys_mapSet {α : Type} (m : List (String × α)) (k : String)
    (v : α) (h : (m.map Prod.fst).Nodup) :
    ((mapSet m k v).map Prod.fst).Nodup := by
  rw [mapSet_keys]
  by_cases hk : k ∈ m.map Prod.fst
  · simpa [hk] using h
  · simp only [hk, if_false]
    rw [List.nodup_append]
    refine ⟨h, List.nodup_singleton k, ?_⟩
    intro x hx hx'
    simp at hx'
    subst hx'
    exact hk hx

theorem mem_keys_mapDelete {α : Type} (m : List (String × α)) (k x : String)
    (h : x ∈ (mapDelete m k).map Prod.fst) : x ∈ m.map Prod.fst := by
  induction m with
  | nil => simp [mapDelete] at h
  | cons p rest ih =>
      obtain ⟨a, b⟩ := p
      by_cases ha : a = k
      · simp only [mapDelete, if_pos ha] at h
        simp [ih h]
      · simp only [mapDelete, if_neg ha, List.map_cons, List.mem_cons] at h
        rcases h with h | h
        · simp [h]
        · simp [ih h]

theorem nodupKeys_mapDelete {α : Type} (m : List (String × α)) (k : String)
    (h : (m.map Prod.fst).Nodup) :
    ((mapDelete m k).map Prod.fst).Nodup := by
  induction m with
  | nil => simp [mapDelete]
  | cons p rest ih =>
      obtain ⟨a, b⟩ := p
      simp only [List.map_cons, List.nodup_cons] at h
      by_cases ha : a = k
      · simp only [mapDelete, if_pos ha]
        exact ih h.2
      · simp only [mapDelete, if_neg ha, List.map_cons, List.nodup_cons]
        exact ⟨fun hx => h.1 (mem_keys_mapDelete rest k a hx), ih h.2⟩

theorem mapGet_of_nodup_mem {α : Type} (m : List (String × α))
    (p : String × α) (hnd : (m.map Prod.fst).Nodup) (hp : p ∈ m) :
    mapGet m p.1 = some p.2 := by
  induction m with
  | nil => cases hp
  | cons q rest ih =>
      obtain ⟨a, b⟩ := q
      simp only [List.map_cons, List.nodup_cons] at hnd
      rcases List.mem_cons.1 hp with rfl | hp'
      · simp [mapGet]
      · have ha : a ≠ p.1 := by
          intro he
          exact hnd.1 (he ▸ List.mem_map_of_mem Prod.fst hp')
        simp only [mapGet, if_neg ha]
        exact ih hnd.2 hp'

theorem mem_socketTo (sio : List (String × List String))
    (nid sender x : String) (h : x ∈ socketTo sio nid sender) : x ≠ sender :=
  ((mem_setDelete _ _ _).1 h).2

/-! ## Bridging membership and the decidable good-step guard -/

theorem memberRoomsList_spec (st : HubState) (sid r : String)
    (h : sid ∈ membersOf st r) : r ∈ memberRoomsList st sid := by
  unfold membersOf at h
  cases hg : mapGet st.noteRooms r with
  | none => rw [hg] at h; cases h
  | some s =>
      rw [hg] at h
      simp only [Option.getD_some] at h
      have hmem : (r, s) ∈ st.noteRooms := mapGet_mem _ _ _ hg
      unfold memberRoomsList
      refine List.mem_map.2 ⟨(r, s), ?_, rfl⟩
      refine List.mem_filter.2 ⟨hmem, ?_⟩
      simpa using h

theorem goodStep_auth_not_mem (st : HubState) (sid : String)
    (hstep : (memberRoomsList st sid).isEmpty = true) :
    ∀ r, sid ∉ membersOf st r := by
  intro r hmem
  have := memberRoomsList_spec st sid r hmem
  rw [List.isEmpty_iff] at hstep
  rw [hstep] at this
  cases this

theorem goodStep_confined (st : HubState) (sid nid : String)
    (hstep : (memberRoomsList st sid).all (fun r => r == nid) = true) :
    ∀ r, sid ∈ membersOf st r → r = nid := by
  intro r hmem
  have hr := memberRoomsList_spec st sid r hmem
  have := List.all_eq_true.1 hstep r hr
  simpa using this

/-! ## Effect lemmas for the handlers -/

theorem join_users (st : HubState) (sid nid : String) (now : Nat)
    (user : ConnectedUser) (hu : mapGet st.connectedUsers sid = some user) :
    (handleNoteJoin st sid nid now).1.connectedUsers
      = mapSet st.connectedUsers sid
          { user with noteId := some nid, lastActivity := now } := by
  simp only [handleNoteJoin, hu]

theorem join_sio (st : HubState) (sid nid : String) (now : Nat)
    (user : ConnectedUser) (hu : mapGet st.connectedUsers sid = some user) :
    (handleNoteJoin st sid nid now).1.sioRooms = sioJoin st.sioRooms nid sid := by
  simp only [handleNoteJoin, hu]

theorem membersOf_join_self (st : HubState) (sid nid : String) (now : Nat)
    (user : ConnectedUser) (hu : mapGet st.connectedUsers sid = some user) :
    membersOf (handleNoteJoin st sid nid now).1 nid
      = setAdd (membersOf st nid) sid := by
  simp only [handleNoteJoin, hu]
  by_cases h : (mapGet st.noteRooms nid).isSome
  · simp [membersOf, h, mapGet_mapSet_self]
  · rw [Option.not_isSome_iff_eq_none] at h
    simp [membersOf, h, mapGet_mapSet_self]

theorem membersOf_join_other (st : HubState) (sid nid r : String)
    (now : Nat) (user : ConnectedUser)
    (hu : mapGet st.connectedUsers sid = some user) (hr : r ≠ nid) :
    membersOf (handleNoteJoin st sid nid now).1 r = membersOf st r := by
  simp only [handleNoteJoin, hu]
  by_cases h : (mapGet st.noteRooms nid).isSome
  · simp [membersOf, h, mapGet_mapSet_ne, hr]
  · simp [membersOf, h, mapGet_mapSet_ne, hr]

theorem join_sends_no_userLeft (st : HubState) (sid nid : String)
    (now : Nat) :
    ∀ p ∈ (handleNoteJoin st sid nid now).2, isUserLeftMsg p.2 = false := by
  intro p hp
  cases hu : mapGet st.connectedUsers sid with
  | none => simp only [handleNoteJoin, hu] at hp; cases hp
  | some user =>
      simp only [handleNoteJoin, hu] at hp
      rcases List.mem_append.1 hp with h | h
      · obtain ⟨x, _, rfl⟩ := List.mem_map.1 h
        rfl
      · simp only [List.mem_singleton] at h
        rw [h]
        rfl

theorem leave_users (st : HubState) (sid nid : String)
    (user : ConnectedUser) (hu : mapGet st.connectedUsers sid = some user) :
    (handleNoteLeave st sid nid).1.connectedUsers
      = mapSet st.connectedUsers sid { user with noteId := none } := by
  simp only [handleNoteLeave, hu]

theorem membersOf_leave_self (st : HubState) (sid nid : String)
    (user : ConnectedUser) (hu : mapGet st.connectedUsers sid = some user) :
    membersOf (handleNoteLeave st sid nid).1 nid
      = setDelete (membersOf st nid) sid := by
  simp only [handleNoteLeave, hu]
  cases h : mapGet st.noteRooms nid with
  | none => simp [membersOf, h, setDelete]
  | some s => simp [membersOf, h, mapGet_mapSet_self]

theorem membersOf_leave_other (st : HubState) (sid nid r : String)
    (user : ConnectedUser) (hu : mapGet st.connectedUsers sid = some user)
    (hr : r ≠ nid) :
    membersOf (handleNoteLeave st sid nid).1 r = membersOf st r := by
  simp only [handleNoteLeave, hu]
  cases h : mapGet st.noteRooms nid with
  | none => simp [membersOf]
  | some s => simp [membersOf, mapGet_mapSet_ne, hr]

theorem leave_rooms_of_not_mem (st : HubState) (sid nid : String)
    (user : ConnectedUser) (hu : mapGet st.connectedUsers sid = some user)
    (hnm : sid ∉ membersOf st nid) :
    (handleNoteLeave st sid nid).1.noteRooms = st.noteRooms := by
  simp only [handleNoteLeave, hu]
  cases h : mapGet st.noteRooms nid with
  | none => rfl
  | some s =>
      have hs : sid ∉ s := by
        simp only [membersOf, h, Option.getD_some] at hnm
        exact hnm
      simp [setDelete_of_not_mem _ _ hs, mapSet_of_get_eq _ _ _ h]

theorem leave_sends (st : HubState) (sid nid : String)
    (user : ConnectedUser) (hu : mapGet st.connectedUsers sid = some user) :
    (handleNoteLeave st sid nid).2
      = (socketTo (sioLeave st.sioRooms nid sid) nid sid).map
          (fun x => (x, OutMsg.userLeft user.userId user.userName)) := by
  simp only [handleNoteLeave, hu]

theorem disconnect_users (st : HubState) (sid : String) :
    (handleDisconnect st sid).1.connectedUsers
      = mapDelete st.connectedUsers sid := by
  cases h : mapGet st.connectedUsers sid with
  | none => simp [handleDisconnect, h]
  | some user =>
      cases hn : user.noteId with
      | none => simp [handleDisconnect, h, hn]
      | some nid =>
          by_cases he : nid = "" <;> simp [handleDisconnect, h, hn, he]

theorem disconnect_sio (st : HubState) (sid : String) :
    (handleDisconnect st sid).1.sioRooms = sioLeaveAll st.sioRooms sid := by
  cases h : mapGet st.connectedUsers sid with
  | none => simp [handleDisconnect, h]
  | some user =>
      cases hn : user.noteId with
      | none => simp [handleDisconnect, h, hn]
      | some nid =>
          by_cases he : nid = "" <;> simp [handleDisconnect, h, hn, he]

theorem membersOf_disconnect_current (st : HubState) (sid nid : String)
    (user : ConnectedUser) (hu : mapGet st.connectedUsers sid = some user)
    (hn : user.noteId = some nid) (hne : nid ≠ "") :
    membersOf (handleDisconnect st sid).1 nid
      = setDelete (membersOf st nid) sid := by
  simp only [handleDisconnect, hu, hn, if_neg hne]
  cases h : mapGet st.noteRooms nid with
  | none => simp [membersOf, h, setDelete]
  | some s => simp [membersOf, h, mapGet_mapSet_self]

theorem disconnect_rooms_of_empty_room (st : HubState) (sid : String)
    (user : ConnectedUser) (hu : mapGet st.connectedUsers sid = some user)
    (hn : user.noteId = some "") :
    (handleDisconnect st sid).1.noteRooms = st.noteRooms := by
  simp [handleDisconnect, hu, hn]

theorem membersOf_disconnect_other (st : HubState) (sid nid r : String)
    (user : ConnectedUser) (hu : mapGet st.connectedUsers sid = some user)
    (hn : user.noteId = some nid) (hr : r ≠ nid) :
    membersOf (handleDisconnect st sid).1 r = membersOf st r := by
  by_cases he : nid = ""
  · simp only [handleDisconnect, hu, hn, if_pos he]
    rfl
  · simp only [handleDisconnect, hu, hn, if_neg he]
    cases h : mapGet st.noteRooms nid with
    | none => simp [membersOf]
    | some s => simp [membersOf, mapGet_mapSet_ne, hr]

theorem disconnect_rooms_of_none (st : HubState) (sid : String)
    (hu : mapGet st.connectedUsers sid = none) :
    (handleDisconnect st sid).1.noteRooms = st.noteRooms := by
  simp [handleDisconnect, hu]

theorem disconnect_rooms_of_no_room (st : HubState) (sid : String)
    (user : ConnectedUser) (hu : mapGet st.connectedUsers sid = some user)
    (hn : user.noteId = none) :
    (handleDisconnect st sid).1.noteRooms = st.noteRooms := by
  simp [handleDisconnect, hu, hn]

theorem cleanupStep_users_none (now T : Nat) (st : HubState)
    (e : String × ConnectedUser) (sid : String)
    (h : mapGet st.connectedUsers sid = none) :
    mapGet (cleanupStep now T st e).connectedUsers sid = none := by
  unfold cleanupStep
  by_cases hc : T < now - e.2.lastActivity
  · rw [if_pos hc]
    exact mapGet_mapDelete_of_none _ _ _ h
  · rw [if_neg hc]
    exact h

theorem cleanupStep_not_mem (now T : Nat) (st : HubState)
    (e : String × ConnectedUser) (r sid : String)
    (h : sid ∉ membersOf st r) :
    sid ∉ membersOf (cleanupStep now T st e) r := by
  by_cases hc : T < now - e.2.lastActivity
  · cases hn : e.2.noteId with
    | none =>
        simp only [cleanupStep, if_pos hc, hn]
        exact h
    | some nid =>
        by_cases he : nid = ""
        · simp only [cleanupStep, if_pos hc, hn, if_pos he]
          exact h
        · cases hg : mapGet st.noteRooms nid with
          | none =>
              simp only [cleanupStep, if_pos hc, hn, if_neg he, hg]
              exact h
          | some s =>
              simp only [cleanupStep, if_pos hc, hn, if_neg he, hg]
              by_cases hr : r = nid
              · subst hr
                simp only [membersOf, mapGet_mapSet_self, Option.getD_some]
                intro hmem
                exact h (by
                  have hms : sid ∈ s := ((mem_setDelete _ _ _).1 hmem).1
                  simp [membersOf, hg, hms])
              · simp only [membersOf, mapGet_mapSet_ne _ _ _ _ hr]
                exact h
  · simp only [cleanupStep, if_neg hc]
    exact h

theorem cleanup_fold_users_none (now T : Nat) (sid : String) :
    ∀ (l : List (String × ConnectedUser)) (acc : HubState),
      mapGet acc.connectedUsers sid = none →
      mapGet ((l.foldl (cleanupStep now T) acc)).connectedUsers sid = none := by
  intro l
  induction l with
  | nil => intro acc h; exact h
  | cons e rest ih =>
      intro acc h
      exact ih _ (cleanupStep_users_none now T acc e sid h)

theorem cleanup_fold_not_mem (now T : Nat) (sid r : String) :
    ∀ (l : List (String × ConnectedUser)) (acc : HubState),
      sid ∉ membersOf acc r →
      sid ∉ membersOf (l.foldl (cleanupStep now T) acc) r := by
  intro l
  induction l with
  | nil => intro acc h; exact h
  | cons e rest ih =>
      intro acc h
      exact ih _ (cleanupStep_not_mem now T acc e r sid h)

theorem cleanup_fold_removes (now T : Nat) (sid : String)
    (user : ConnectedUser) (hcond : T < now - user.lastActivity) :
    ∀ (l : List (String × ConnectedUser)) (acc : HubState),
      mapGet l sid = some user →
      mapGet ((l.foldl (cleanupStep now T) acc)).connectedUsers sid = none
      ∧ (∀ nid, user.noteId = some nid → nid ≠ "" →
          sid ∉ membersOf (l.foldl (cleanupStep now T) acc) nid) := by
  intro l
  induction l with
  | nil => intro acc h; simp [mapGet] at h
  | cons e rest ih =>
      intro acc h
      obtain ⟨k, u⟩ := e
      rw [List.foldl_cons]
      by_cases hk : k = sid
      · subst hk
        simp only [mapGet, if_pos rfl] at h
        obtain rfl : u = user := Option.some.inj h
        constructor
        · apply cleanup_fold_users_none
          simp only [cleanupStep, if_pos hcond]
          exact mapGet_mapDelete_self _ _
        · intro nid hnid hne
          apply cleanup_fold_not_mem
          simp only [cleanupStep, if_pos hcond, hnid, if_neg hne]
          cases hg : mapGet acc.noteRooms nid with
          | none => simp [membersOf, hg]
          | some s =>
              simp [membersOf, mapGet_mapSet_self, mem_setDelete]
      · simp only [mapGet, if_neg hk] at h
        exact ih _ h

theorem rosterLoop_eq_filterMap (users : List (String × ConnectedUser))
    (l : List String) :
    rosterLoop users l
      = l.filterMap (fun sid => (mapGet users sid).map
          (fun u => (⟨u.userId, u.userName, u.color⟩ : ActiveUser))) := by
  induction l with
  | nil => rfl
  | cons sid rest ih =>
      cases h : mapGet users sid with
      | none => simp [rosterLoop, h, ih]
      | some u => simp [rosterLoop, h, ih]

theorem rosterLoop_length (users : List (String × ConnectedUser))
    (l : List String) :
    (rosterLoop users l).length
      = (l.filter (fun sid => (mapGet users sid).isSome)).length := by
  induction l with
  | nil => rfl
  | cons sid rest ih =>
      cases h : mapGet users sid with
      | none => simp [rosterLoop, h, List.filter, ih]
      | some u => simp [rosterLoop, h, List.filter, ih]

theorem rosterLoop_mem_of (users : List (String × ConnectedUser))
    (l : List String) (sid : String) (u : ConnectedUser)
    (hs : sid ∈ l) (hu : mapGet users sid = some u) :
    (⟨u.userId, u.userName, u.color⟩ : ActiveUser) ∈ rosterLoop users l := by
  induction l with
  | nil => cases hs
  | cons a rest ih =>
      rcases List.mem_cons.1 hs with rfl | hs'
      · simp [rosterLoop, hu]
      · cases h : mapGet users a with
        | none =>
            simp only [rosterLoop, h]
            exact ih hs'
        | some v =>
            simp only [rosterLoop, h, List.mem_cons]
            exact Or.inr (ih hs')

theorem rosterLoop_mem_inv (users : List (String × ConnectedUser))
    (l : List String) :
    ∀ a ∈ rosterLoop users l, ∃ sid ∈ l, ∃ u,
      mapGet users sid = some u
      ∧ a = (⟨u.userId, u.userName, u.color⟩ : ActiveUser) := by
  induction l with
  | nil => intro a ha; cases ha
  | cons s rest ih =>
      intro a ha
      cases h : mapGet users s with
      | none =>
          simp only [rosterLoop, h] at ha
          obtain ⟨sid, hsid, u, hu, he⟩ := ih a ha
          exact ⟨sid, List.mem_cons_of_mem s hsid, u, hu, he⟩
      | some u =>
          simp only [rosterLoop, h, List.mem_cons] at ha
          rcases ha with rfl | ha'
          · exact ⟨s, List.mem_cons_self s rest, u, h, rfl⟩
          · obtain ⟨sid, hsid, v, hv, he⟩ := ih a ha'
            exact ⟨sid, List.mem_cons_of_mem s hsid, v, hv, he⟩

theorem map_get_reduceOption (users : List (String × ConnectedUser))
    (l : List String) :
    (l.map (fun sid => mapGet users sid)).reduceOption
      = l.filterMap (fun sid => mapGet users sid) := by
  rw [List.reduceOption, List.filterMap_map]
  rfl

/-! ## Preservation of the membership/record invariant -/

theorem cleanupStep_users_delete (now T : Nat) (acc : HubState)
    (k : String) (u : ConnectedUser) (hc : T < now - u.lastActivity) :
    (cleanupStep now T acc (k, u)).connectedUsers
      = mapDelete acc.connectedUsers k := by
  cases hn : u.noteId with
  | none => simp [cleanupStep, if_pos hc, hn]
  | some nid =>
      by_cases he : nid = "" <;> simp [cleanupStep, if_pos hc, hn, he]

theorem cleanupStep_preserves_vis (now T : Nat) (acc : HubState)
    (k : String) (u : ConnectedUser) (q : String × ConnectedUser)
    (hne : q.1 ≠ k)
    (hq : mapGet acc.connectedUsers q.1 = some q.2) :
    mapGet (cleanupStep now T acc (k, u)).connectedUsers q.1 = some q.2 := by
  by_cases hc : T < now - u.lastActivity
  · rw [cleanupStep_users_delete now T acc k u hc,
      mapGet_mapDelete_ne _ _ _ hne]
    exact hq
  · simp only [cleanupStep, if_neg hc]
    exact hq

theorem cleanupStep_room_empty (now T : Nat) (acc : HubState)
    (e : String × ConnectedUser) :
    membersOf (cleanupStep now T acc e) "" = membersOf acc "" := by
  by_cases hc : T < now - e.2.lastActivity
  · cases hn : e.2.noteId with
    | none =>
        simp only [cleanupStep, if_pos hc, hn]
        rfl
    | some nid =>
        by_cases he : nid = ""
        · simp only [cleanupStep, if_pos hc, hn, if_pos he]
          rfl
        · simp only [cleanupStep, if_pos hc, hn, if_neg he]
          cases hg : mapGet acc.noteRooms nid with
          | none => rfl
          | some s =>
              simp only [membersOf,
                mapGet_mapSet_ne _ _ _ _ (Ne.symm he)]
  · simp only [cleanupStep, if_neg hc]

theorem cleanup_fold_room_empty (now T : Nat) :
    ∀ (l : List (String × ConnectedUser)) (acc : HubState),
      membersOf (l.foldl (cleanupStep now T) acc) "" = membersOf acc "" := by
  intro l
  induction l with
  | nil => intro acc; rfl
  | cons e rest ih =>
      intro acc
      rw [List.foldl_cons, ih, cleanupStep_room_empty]

theorem cleanupStep_preserves (now T : Nat) (acc : HubState)
    (k : String) (u : ConnectedUser)
    (hvis : mapGet acc.connectedUsers k = some u)
    (hwf : WFKeys acc) (hg : GoodState acc)
    (hro : membersOf acc "" = []) :
    WFKeys (cleanupStep now T acc (k, u))
    ∧ GoodState (cleanupStep now T acc (k, u)) := by
  by_cases hc : T < now - u.lastActivity
  · refine ⟨?_, ?_⟩
    · unfold WFKeys
      rw [cleanupStep_users_delete now T acc k u hc]
      exact nodupKeys_mapDelete _ _ hwf
    · intro r sid' hmem
      cases hn : u.noteId with
      | none =>
          have hro2 : (cleanupStep now T acc (k, u)).noteRooms
              = acc.noteRooms := by
            simp [cleanupStep, if_pos hc, hn]
          have hmem' : sid' ∈ membersOf acc r := by
            unfold membersOf at hmem ⊢
            rw [hro2] at hmem
            exact hmem
          obtain ⟨w, hgw, hwn⟩ := hg r sid' hmem'
          by_cases hs : sid' = k
          · subst hs
            obtain rfl : w = u := Option.some.inj (hgw.symm.trans hvis)
            rw [hn] at hwn
            cases hwn
          · refine ⟨w, ?_, hwn⟩
            rw [cleanupStep_users_delete now T acc k u hc,
              mapGet_mapDelete_ne _ _ _ hs]
            exact hgw
      | some nid =>
          by_cases he : nid = ""
          · have hro2 : (cleanupStep now T acc (k, u)).noteRooms
                = acc.noteRooms := by
              simp [cleanupStep, if_pos hc, hn, he]
            have hmem' : sid' ∈ membersOf acc r := by
              unfold membersOf at hmem ⊢
              rw [hro2] at hmem
              exact hmem
            obtain ⟨w, hgw, hwn⟩ := hg r sid' hmem'
            by_cases hs : sid' = k
            · subst hs
              obtain rfl : w = u := Option.some.inj (hgw.symm.trans hvis)
              rw [hn] at hwn
              have hr0 : r = "" := (Option.some.inj hwn) ▸ he
              rw [hr0, hro] at hmem'
              cases hmem'
            · refine ⟨w, ?_, hwn⟩
              rw [cleanupStep_users_delete now T acc k u hc,
                mapGet_mapDelete_ne _ _ _ hs]
              exact hgw
          · have hmemself : membersOf (cleanupStep now T acc (k, u)) nid
                = setDelete (membersOf acc nid) k := by
              simp only [cleanupStep, if_pos hc, hn, if_neg he]
              cases hgr : mapGet acc.noteRooms nid with
              | none => simp [membersOf, hgr, setDelete]
              | some s => simp [membersOf, hgr, mapGet_mapSet_self]
            have hmemother : ∀ r', r' ≠ nid →
                membersOf (cleanupStep now T acc (k, u)) r'
                  = membersOf acc r' := by
              intro r' hr'
              simp only [cleanupStep, if_pos hc, hn, if_neg he]
              cases hgr : mapGet acc.noteRooms nid with
              | none => simp [membersOf]
              | some s => simp [membersOf, mapGet_mapSet_ne, hr']
            by_cases hr : r = nid
            · subst hr
              rw [hmemself] at hmem
              have hmem1 := (mem_setDelete _ _ _).1 hmem
              by_cases hs : sid' = k
              · exact absurd hs hmem1.2
              · obtain ⟨w, hgw, hwn⟩ := hg r sid' hmem1.1
                refine ⟨w, ?_, hwn⟩
                rw [cleanupStep_users_delete now T acc k u hc,
                  mapGet_mapDelete_ne _ _ _ hs]
                exact hgw
            · rw [hmemother r hr] at hmem
              by_cases hs : sid' = k
              · subst hs
                obtain ⟨w, hgw, hwn⟩ := hg r sid' hmem
                obtain rfl : w = u := Option.some.inj (hgw.symm.trans hvis)
                rw [hn] at hwn
                exact absurd (Option.some.inj hwn).symm hr
              · obtain ⟨w, hgw, hwn⟩ := hg r sid' hmem
                refine ⟨w, ?_, hwn⟩
                rw [cleanupStep_users_delete now T acc k u hc,
                  mapGet_mapDelete_ne _ _ _ hs]
                exact hgw
  · have hid : cleanupStep now T acc (k, u) = acc := by
      simp [cleanupStep, hc]
    rw [hid]
    exact ⟨hwf, hg⟩

theorem cleanup_fold_preserves (now T : Nat) :
    ∀ (l : List (String × ConnectedUser)) (acc : HubState),
      (l.map Prod.fst).Nodup →
      (∀ p ∈ l, mapGet acc.connectedUsers p.1 = some p.2) →
      WFKeys acc → GoodState acc → membersOf acc "" = [] →
      WFKeys (l.foldl (cleanupStep now T) acc)
      ∧ GoodState (l.foldl (cleanupStep now T) acc) := by
  intro l
  induction l with
  | nil => exact fun acc _ _ hwf hg _ => ⟨hwf, hg⟩
  | cons e rest ih =>
      intro acc hnd hvis hwf hg hro
      obtain ⟨k, u⟩ := e
      rw [List.foldl_cons]
      simp only [List.map_cons, List.nodup_cons] at hnd
      have hvisk : mapGet acc.connectedUsers k = some u :=
        hvis (k, u) (List.mem_cons_self _ _)
      have hstep := cleanupStep_preserves now T acc k u hvisk hwf hg hro
      have hro' : membersOf (cleanupStep now T acc (k, u)) "" = [] := by
        rw [cleanupStep_room_empty]
        exact hro
      refine ih _ hnd.2 ?_ hstep.1 hstep.2 hro'
      intro q hq
      have hne : q.1 ≠ k := by
        intro he
        exact hnd.1 (he ▸ List.mem_map_of_mem Prod.fst hq)
      exact cleanupStep_preserves_vis now T acc k u q hne
        (hvis q (List.mem_cons_of_mem _ hq))

theorem goodStep_preserves (st : HubState) (op : HubOp)
    (hwf : WFKeys st) (hg : GoodState st)
    (hro : membersOf st "" = [])
    (hstep : goodStepB st op = true) :
    WFKeys (applyOp st op).1 ∧ GoodState (applyOp st op).1
    ∧ membersOf (applyOp st op).1 "" = [] := by
  cases op with
  | authenticate sid uid un color now =>
      simp only [goodStepB] at hstep
      have hnm := goodStep_auth_not_mem st sid hstep
      refine ⟨?_, ?_, ?_⟩
      · show ((mapSet st.connectedUsers sid
            ⟨sid, uid, un, none, color, now⟩).map Prod.fst).Nodup
        exact nodupKeys_mapSet _ _ _ hwf
      · intro r sid' hmem
        have hmem' : sid' ∈ membersOf st r := hmem
        by_cases hs : sid' = sid
        · subst hs
          exact absurd hmem' (hnm r)
        · obtain ⟨u, hu, hn⟩ := hg r sid' hmem'
          refine ⟨u, ?_, hn⟩
          show mapGet (mapSet st.connectedUsers sid
            ⟨sid, uid, un, none, color, now⟩) sid' = some u
          rw [mapGet_mapSet_ne _ _ _ _ hs]
          exact hu
      · exact hro
  | join sid nid now =>
      simp only [goodStepB, Bool.and_eq_true] at hstep
      have hnid : nid ≠ "" := by
        have h1 := hstep.1
        simpa [bne_iff_ne] using h1
      have hconf := goodStep_confined st sid nid hstep.2
      simp only [applyOp]
      cases hu : mapGet st.connectedUsers sid with
      | none =>
          have hst : (handleNoteJoin st sid nid now).1 = st := by
            simp [handleNoteJoin, hu]
          rw [hst]
          exact ⟨hwf, hg, hro⟩
      | some user =>
          refine ⟨?_, ?_, ?_⟩
          · unfold WFKeys
            rw [join_users st sid nid now user hu]
            exact nodupKeys_mapSet _ _ _ hwf
          · intro r sid' hmem
            by_cases hr : r = nid
            · subst hr
              rw [membersOf_join_self st sid r now user hu] at hmem
              by_cases hs : sid' = sid
              · subst hs
                refine ⟨{ user with noteId := some r, lastActivity := now },
                  ?_, rfl⟩
                rw [join_users st sid' r now user hu, mapGet_mapSet_self]
              · have hmem' : sid' ∈ membersOf st r := by
                  rcases (mem_setAdd _ _ _).1 hmem with h | h
                  · exact h
                  · exact absurd h hs
                obtain ⟨u, hgu, hn⟩ := hg r sid' hmem'
                refine ⟨u, ?_, hn⟩
                rw [join_users st sid r now user hu,
                  mapGet_mapSet_ne _ _ _ _ hs]
                exact hgu
            · rw [membersOf_join_other st sid nid r now user hu hr] at hmem
              by_cases hs : sid' = sid
              · subst hs
                exact absurd (hconf r hmem) hr
              · obtain ⟨u, hgu, hn⟩ := hg r sid' hmem
                refine ⟨u, ?_, hn⟩
                rw [join_users st sid nid now user hu,
                  mapGet_mapSet_ne _ _ _ _ hs]
                exact hgu
          · rw [membersOf_join_other st sid nid "" now user hu
              (Ne.symm hnid)]
            exact hro
  | leave sid nid =>
      simp only [goodStepB] at hstep
      have hconf := goodStep_confined st sid nid hstep
      simp only [applyOp]
      cases hu : mapGet st.connectedUsers sid with
      | none =>
          have hst : (handleNoteLeave st sid nid).1 = st := by
            simp [handleNoteLeave, hu]
          rw [hst]
          exact ⟨hwf, hg, hro⟩
      | some user =>
          refine ⟨?_, ?_, ?_⟩
          · unfold WFKeys
            rw [leave_users st sid nid user hu]
            exact nodupKeys_mapSet _ _ _ hwf
          · intro r sid' hmem
            by_cases hs : sid' = sid
            · subst hs
              by_cases hr : r = nid
              · subst hr
                rw [membersOf_leave_self st sid' r user hu] at hmem
                exact absurd rfl ((mem_setDelete _ _ _).1 hmem).2
              · rw [membersOf_leave_other st sid' nid r user hu hr] at hmem
                exact absurd (hconf r hmem) hr
            · have hmem' : sid' ∈ membersOf st r := by
                by_cases hr : r = nid
                · subst hr
                  rw [membersOf_leave_self st sid r user hu] at hmem
                  exact ((mem_setDelete _ _ _).1 hmem).1
                · rw [membersOf_leave_other st sid nid r user hu hr] at hmem
                  exact hmem
              obtain ⟨u, hgu, hn⟩ := hg r sid' hmem'
              refine ⟨u, ?_, hn⟩
              rw [leave_users st sid nid user hu,
                mapGet_mapSet_ne _ _ _ _ hs]
              exact hgu
          · by_cases he : nid = ""
            · subst he
              rw [membersOf_leave_self st sid "" user hu, hro]
              rfl
            · rw [membersOf_leave_other st sid nid "" user hu (Ne.symm he)]
              exact hro
  | update sid d now =>
      simp only [applyOp]
      cases hu : mapGet st.connectedUsers sid with
      | none =>
          have hst : (handleNoteUpdate st sid d now).1 = st := by
            simp [handleNoteUpdate, hu]
          rw [hst]
          exact ⟨hwf, hg, hro⟩
      | some user =>
          have husers : (handleNoteUpdate st sid d now).1.connectedUsers
              = mapSet st.connectedUsers sid
                  { user with lastActivity := now } := by
            simp [handleNoteUpdate, hu]
          have hrooms : (handleNoteUpdate st sid d now).1.noteRooms
              = st.noteRooms := by
            simp [handleNoteUpdate, hu]
          refine ⟨?_, ?_, ?_⟩
          · unfold WFKeys
            rw [husers]
            exact nodupKeys_mapSet _ _ _ hwf
          · intro r sid' hmem
            have hmem' : sid' ∈ membersOf st r := by
              unfold membersOf at hmem ⊢
              rw [hrooms] at hmem
              exact hmem
            obtain ⟨u, hgu, hn⟩ := hg r sid' hmem'
            by_cases hs : sid' = sid
            · subst hs
              obtain rfl : u = user := Option.some.inj (hgu.symm.trans hu)
              refine ⟨{ u with lastActivity := now }, ?_, hn⟩
              rw [husers, mapGet_mapSet_self]
            · refine ⟨u, ?_, hn⟩
              rw [husers, mapGet_mapSet_ne _ _ _ _ hs]
              exact hgu
          · unfold membersOf
            rw [hrooms]
            exact hro
  | cursor sid d =>
      have hst : (applyOp st (.cursor sid d)).1 = st := by
        cases hu : mapGet st.connectedUsers sid <;>
          simp [applyOp, handleCursorUpdate, hu]
      rw [hst]
      exact ⟨hwf, hg, hro⟩
  | selection sid d =>
      have hst : (applyOp st (.selection sid d)).1 = st := by
        cases hu : mapGet st.connectedUsers sid <;>
          simp [applyOp, handleSelectionUpdate, hu]
      rw [hst]
      exact ⟨hwf, hg, hro⟩
  | typing sid d =>
      have hst : (applyOp st (.typing sid d)).1 = st := by
        cases hu : mapGet st.connectedUsers sid <;>
          simp [applyOp, handleTypingIndicator, hu]
      rw [hst]
      exact ⟨hwf, hg, hro⟩
  | activity sid now =>
      simp only [applyOp]
      cases hu : mapGet st.connectedUsers sid with
      | none =>
          have hst : (handleUserActivity st sid now).1 = st := by
            simp [handleUserActivity, hu]
          rw [hst]
          exact ⟨hwf, hg, hro⟩
      | some user =>
          have husers : (handleUserActivity st sid now).1.connectedUsers
              = mapSet st.connectedUsers sid
                  { user with lastActivity := now } := by
            simp [handleUserActivity, hu]
          have hrooms : (handleUserActivity st sid now).1.noteRooms
              = st.noteRooms := by
            simp [handleUserActivity, hu]
          refine ⟨?_, ?_, ?_⟩
          · unfold WFKeys
            rw [husers]
            exact nodupKeys_mapSet _ _ _ hwf
          · intro r sid' hmem
            have hmem' : sid' ∈ membersOf st r := by
              unfold membersOf at hmem ⊢
              rw [hrooms] at hmem
              exact hmem
            obtain ⟨u, hgu, hn⟩ := hg r sid' hmem'
            by_cases hs : sid' = sid
            · subst hs
              obtain rfl : u = user := Option.some.inj (hgu.symm.trans hu)
              refine ⟨{ u with lastActivity := now }, ?_, hn⟩
              rw [husers, mapGet_mapSet_self]
            · refine ⟨u, ?_, hn⟩
              rw [husers, mapGet_mapSet_ne _ _ _ _ hs]
              exact hgu
          · unfold membersOf
            rw [hrooms]
            exact hro
  | disconnect sid =>
      simp only [applyOp]
      refine ⟨?_, ?_, ?_⟩
      · unfold WFKeys
        rw [disconnect_users]
        exact nodupKeys_mapDelete _ _ hwf
      · intro r sid' hmem
        by_cases hs : sid' = sid
        · subst hs
          cases hu : mapGet st.connectedUsers sid' with
          | none =>
              have hroe := disconnect_rooms_of_none st sid' hu
              have hmem' : sid' ∈ membersOf st r := by
                unfold membersOf at hmem ⊢
                rw [hroe] at hmem
                exact hmem
              obtain ⟨u, hgu, _⟩ := hg r sid' hmem'
              rw [hu] at hgu
              cases hgu
          | some user =>
              cases hn : user.noteId with
              | none =>
                  have hroe := disconnect_rooms_of_no_room st sid' user hu hn
                  have hmem' : sid' ∈ membersOf st r := by
                    unfold membersOf at hmem ⊢
                    rw [hroe] at hmem
                    exact hmem
                  obtain ⟨u, hgu, hun⟩ := hg r sid' hmem'
                  obtain rfl : u = user := Option.some.inj (hgu.symm.trans hu)
                  rw [hn] at hun
                  cases hun
              | some nid =>
                  by_cases he : nid = ""
                  · have hroe := disconnect_rooms_of_empty_room st sid' user
                      hu (he ▸ hn)
                    have hmem' : sid' ∈ membersOf st r := by
                      unfold membersOf at hmem ⊢
                      rw [hroe] at hmem
                      exact hmem
                    obtain ⟨u, hgu, hun⟩ := hg r sid' hmem'
                    obtain rfl : u = user :=
                      Option.some.inj (hgu.symm.trans hu)
                    rw [hn] at hun
                    have hr0 : r = "" := (Option.some.inj hun) ▸ he
                    rw [hr0, hro] at hmem'
                    cases hmem'
                  · by_cases hr : r = nid
                    · subst hr
                      rw [membersOf_disconnect_current st sid' r user hu hn he]
                        at hmem
                      exact absurd rfl ((mem_setDelete _ _ _).1 hmem).2
                    · rw [membersOf_disconnect_other st sid' nid r user hu
                        hn hr] at hmem
                      obtain ⟨u, hgu, hun⟩ := hg r sid' hmem
                      obtain rfl : u = user :=
                        Option.some.inj (hgu.symm.trans hu)
                      rw [hn] at hun
                      exact absurd (Option.some.inj hun).symm hr
        · have hmem' : sid' ∈ membersOf st r := by
            cases hu : mapGet st.connectedUsers sid with
            | none =>
                have hroe := disconnect_rooms_of_none st sid hu
                unfold membersOf at hmem ⊢
                rw [hroe] at hmem
                exact hmem
            | some user =>
                cases hn : user.noteId with
                | none =>
                    have hroe := disconnect_rooms_of_no_room st sid user hu hn
                    unfold membersOf at hmem ⊢
                    rw [hroe] at hmem
                    exact hmem
                | some nid =>
                    by_cases he : nid = ""
                    · have hroe := disconnect_rooms_of_empty_room st sid user
                        hu (he ▸ hn)
                      unfold membersOf at hmem ⊢
                      rw [hroe] at hmem
                      exact hmem
                    · by_cases hr : r = nid
                      · subst hr
                        rw [membersOf_disconnect_current st sid r user hu
                          hn he] at hmem
                        exact ((mem_setDelete _ _ _).1 hmem).1
                      · rw [membersOf_disconnect_other st sid nid r user hu
                          hn hr] at hmem
                        exact hmem
          obtain ⟨u, hgu, hn⟩ := hg r sid' hmem'
          refine ⟨u, ?_, hn⟩
          rw [disconnect_users, mapGet_mapDelete_ne _ _ _ hs]
          exact hgu
      · cases hu : mapGet st.connectedUsers sid with
        | none =>
            have hroe := disconnect_rooms_of_none st sid hu
            unfold membersOf
            rw [hroe]
            exact hro
        | some user =>
            cases hn : user.noteId with
            | none =>
                have hroe := disconnect_rooms_of_no_room st sid user hu hn
                unfold membersOf
                rw [hroe]
                exact hro
            | some nid =>
                by_cases he : nid = ""
                · have hroe := disconnect_rooms_of_empty_room st sid user hu
                    (he ▸ hn)
                  unfold membersOf
                  rw [hroe]
                  exact hro
                · rw [membersOf_disconnect_other st sid nid "" user hu hn
                    (Ne.symm he)]
                  exact hro
  | sweep T now =>
      have hvis : ∀ p ∈ st.connectedUsers,
          mapGet st.connectedUsers p.1 = some p.2 :=
        fun p hp => mapGet_of_nodup_mem _ p hwf hp
      have h := cleanup_fold_preserves now T st.connectedUsers st hwf hvis
        hwf hg hro
      refine ⟨h.1, h.2, ?_⟩
      show membersOf (st.connectedUsers.foldl (cleanupStep now T) st) "" = []
      rw [cleanup_fold_room_empty]
      exact hro

theorem WFKeys_init : WFKeys initState := by
  simp [WFKeys, initState]

theorem GoodState_init : GoodState initState := by
  intro r sid h
  simp [membersOf, initState, mapGet] at h

theorem goodSeq_run (ops : List HubOp) :
    ∀ st, WFKeys st → GoodState st → membersOf st "" = [] →
      goodSeqB st ops = true →
      WFKeys (runOps st ops) ∧ GoodState (runOps st ops)
      ∧ membersOf (runOps st ops) "" = [] := by
  induction ops with
  | nil => exact fun st hwf hg hro _ => ⟨hwf, hg, hro⟩
  | cons op rest ih =>
      intro st hwf hg hro hseq
      simp only [goodSeqB, Bool.and_eq_true] at hseq
      have hstep := goodStep_preserves st op hwf hg hro hseq.1
      show WFKeys (rest.foldl (fun s o => (applyOp s o).1) (applyOp st op).1)
        ∧ GoodState (rest.foldl (fun s o => (applyOp s o).1) (applyOp st op).1)
        ∧ membersOf
            (rest.foldl (fun s o => (applyOp s o).1) (applyOp st op).1) ""
          = []
      exact ih _ hstep.1 hstep.2.1 hstep.2.2 hseq.2

theorem join_self_send (st : HubState) (sid nid : String) (now : Nat)
    (user : ConnectedUser) (hu : mapGet st.connectedUsers sid = some user) :
    (sid, OutMsg.noteUsers
        (getActiveUsersInNote (handleNoteJoin st sid nid now).1 nid))
      ∈ (handleNoteJoin st sid nid now).2 := by
  simp only [handleNoteJoin, hu]
  exact List.mem_append_right _ (List.mem_singleton.2 rfl)

theorem join_roster (st : HubState) (sid nid : String) (now : Nat)
    (user : ConnectedUser) (hu : mapGet st.connectedUsers sid = some user) :
    getActiveUsersInNote (handleNoteJoin st sid nid now).1 nid
      = rosterLoop
          (mapSet st.connectedUsers sid
            { user with noteId := some nid, lastActivity := now })
          (setAdd (membersOf st nid) sid) := by
  unfold getActiveUsersInNote
  rw [join_users st sid nid now user hu,
    membersOf_join_self st sid nid now user hu]

theorem isSome_mapGet_mapSet {α : Type} (m : List (String × α))
    (k k' : String) (v : α) (h : (mapGet m k').isSome = true) :
    (mapGet (mapSet m k v) k').isSome = true := by
  by_cases hk : k' = k
  · subst hk
    rw [mapGet_mapSet_self]
    rfl
  · rw [mapGet_mapSet_ne _ _ _ _ hk]
    exact h

theorem cleanupStep_rooms_isSome (now T : Nat) (acc : HubState)
    (e : String × ConnectedUser) (r : String)
    (h : (mapGet acc.noteRooms r).isSome = true) :
    (mapGet (cleanupStep now T acc e).noteRooms r).isSome = true := by
  by_cases hc : T < now - e.2.lastActivity
  · cases hn : e.2.noteId with
    | none =>
        simp only [cleanupStep, if_pos hc, hn]
        exact h
    | some nid =>
        by_cases he : nid = ""
        · simp only [cleanupStep, if_pos hc, hn, if_pos he]
          exact h
        · cases hg : mapGet acc.noteRooms nid with
          | none =>
              simp only [cleanupStep, if_pos hc, hn, if_neg he, hg]
              exact h
          | some s =>
              simp only [cleanupStep, if_pos hc, hn, if_neg he, hg]
              exact isSome_mapGet_mapSet _ _ _ _ h
  · simp only [cleanupStep, if_neg hc]
    exact h

theorem cleanup_fold_rooms_isSome (now T : Nat) (r : String) :
    ∀ (l : List (String × ConnectedUser)) (acc : HubState),
      (mapGet acc.noteRooms r).isSome = true →
      (mapGet ((l.foldl (cleanupStep now T) acc)).noteRooms r).isSome = true := by
  intro l
  induction l with
  | nil => exact fun acc h => h
  | cons e rest ih =>
      intro acc h
      exact ih _ (cleanupStep_rooms_isSome now T acc e r h)

/-! ## Settling the claims -/

/-- C1 counterexample: the claim says that `join(A, "doc2")` while A is a
member of "doc1" first performs the full leave logic for "doc1" (A removed
from "doc1"'s member set, B notified with a member-left). In the code,
after the scenario A is still a member of "doc1" and the join emits no
`user:left` message at all. -/
theorem claim1_counterexample :
    "A" ∈ membersOf
        (applyOp (runOps initState
          [ .authenticate "A" "uA" "Alice" "#F00" 0
          , .authenticate "B" "uB" "Bob" "#0F0" 0
          , .join "B" "doc1" 0
          , .join "A" "doc1" 0 ])
          (.join "A" "doc2" 1)).1 "doc1"
    ∧ (∀ p ∈ (applyOp (runOps initState
          [ .authenticate "A" "uA" "Alice" "#F00" 0
          , .authenticate "B" "uB" "Bob" "#0F0" 0
          , .join "B" "doc1" 0
          , .join "A" "doc1" 0 ])
          (.join "A" "doc2" 1)).2, isUserLeftMsg p.2 = false) := by
  decide

/-- C1 (amended): `handleNoteJoin` performs no leave of the previous room.
If a registered connection that is a member of room `r1` joins `r2 ≠ r1`,
it is added to `r2`'s member set and its current-note field becomes `r2`,
but it remains in `r1`'s member set, and no member-left notification is
emitted by the join. -/
theorem claim1_join_keeps_previous_room (st : HubState)
    (sid r1 r2 : String) (now : Nat) (user : ConnectedUser)
    (hu : mapGet st.connectedUsers sid = some user)
    (hmem : sid ∈ membersOf st r1) (hne : r1 ≠ r2) :
    sid ∈ membersOf (handleNoteJoin st sid r2 now).1 r1
    ∧ sid ∈ membersOf (handleNoteJoin st sid r2 now).1 r2
    ∧ mapGet (handleNoteJoin st sid r2 now).1.connectedUsers sid
        = some { user with noteId := some r2, lastActivity := now }
    ∧ (∀ p ∈ (handleNoteJoin st sid r2 now).2, isUserLeftMsg p.2 = false) := by
  refine ⟨?_, ?_, ?_, join_sends_no_userLeft st sid r2 now⟩
  · rw [membersOf_join_other st sid r2 r1 now user hu hne]
    exact hmem
  · rw [membersOf_join_self st sid r2 now user hu]
    exact (mem_setAdd _ _ _).2 (Or.inr rfl)
  · rw [join_users st sid r2 now user hu, mapGet_mapSet_self]

/-- C1 witness: the amended statement at the concrete counterexample
scenario. -/
theorem claim1_witness :
    "A" ∈ membersOf
        (handleNoteJoin (runOps initState
          [ .authenticate "A" "uA" "Alice" "#F00" 0
          , .authenticate "B" "uB" "Bob" "#0F0" 0
          , .join "B" "doc1" 0
          , .join "A" "doc1" 0 ]) "A" "doc2" 1).1 "doc1" :=
  (claim1_join_keeps_previous_room _ "A" "doc1" "doc2" 1
    ⟨"A", "uA", "Alice", some "doc1", "#F00", 0⟩
    (by decide) (by decide) (by decide)).1

/-- C2 counterexample: after `authenticate A; join A doc1; join A doc2;
disconnect A`, room "doc1"'s member set still contains "A" although "A"
has no record in the connection table — the invariant claimed for all
reachable states is violated. -/
theorem claim2_counterexample :
    "A" ∈ membersOf (runOps initState
        [ .authenticate "A" "uA" "Alice" "#F00" 0
        , .join "A" "doc1" 0
        , .join "A" "doc2" 1
        , .disconnect "A" ]) "doc1"
    ∧ mapGet (runOps initState
        [ .authenticate "A" "uA" "Alice" "#F00" 0
        , .join "A" "doc1" 0
        , .join "A" "doc2" 1
        , .disconnect "A" ]).connectedUsers "A" = none := by
  decide

/-- C2 (amended): the membership/record invariant holds for every state
reachable by a sequence of operations in which no connection
authenticates while still in a room's member set, no connection joins or
leaves a room while a member of a different room, and no join names the
empty-string room identifier — which the falsy `if (user.noteId)` guards
of disconnect and sweep never clean up (`goodSeqB`): in such states every
connection id in any room's member set has a record in the connection
table. -/
theorem claim2_members_have_records (ops : List HubOp)
    (hgood : goodSeqB initState ops = true) (r sid : String)
    (hmem : sid ∈ membersOf (runOps initState ops) r) :
    (mapGet (runOps initState ops).connectedUsers sid).isSome = true := by
  obtain ⟨-, hg, -⟩ := goodSeq_run ops initState WFKeys_init GoodState_init
    rfl hgood
  obtain ⟨u, hu, -⟩ := hg r sid hmem
  rw [hu]
  rfl

/-- C2 witness: the amended invariant at a concrete good sequence. -/
theorem claim2_witness :
    (mapGet (runOps initState
        [ .authenticate "A" "uA" "Alice" "#F00" 0
        , .join "A" "doc1" 0 ]).connectedUsers "A").isSome = true :=
  claim2_members_have_records
    [ .authenticate "A" "uA" "Alice" "#F00" 0
    , .join "A" "doc1" 0 ]
    (by decide) "doc1" "A" (by decide)

/-- C3 counterexample: A's current room is "doc1" (with other member B),
but A's relay payload names "doc2"; the event is delivered to "doc2"'s
member M and not to B — so delivery follows the payload's room, not the
sender's current room as the claim states. -/
theorem claim3_counterexample :
    (mapGet (runOps initState
        [ .authenticate "A" "uA" "Alice" "#F00" 0
        , .authenticate "B" "uB" "Bob" "#0F0" 0
        , .join "B" "doc1" 0
        , .join "A" "doc1" 0
        , .authenticate "M" "uM" "Max" "#444" 0
        , .join "M" "doc2" 0 ]).connectedUsers "A").map ConnectedUser.noteId
      = some (some "doc1")
    ∧ "B" ∈ membersOf (runOps initState
        [ .authenticate "A" "uA" "Alice" "#F00" 0
        , .authenticate "B" "uB" "Bob" "#0F0" 0
        , .join "B" "doc1" 0
        , .join "A" "doc1" 0
        , .authenticate "M" "uM" "Max" "#444" 0
        , .join "M" "doc2" 0 ]) "doc1"
    ∧ (applyOp (runOps initState
        [ .authenticate "A" "uA" "Alice" "#F00" 0
        , .authenticate "B" "uB" "Bob" "#0F0" 0
        , .join "B" "doc1" 0
        , .join "A" "doc1" 0
        , .authenticate "M" "uM" "Max" "#444" 0
        , .join "M" "doc2" 0 ])
        (.update "A" ⟨"doc2", "forged", "hi", 7, some 3⟩ 9)).2.map Prod.fst
      = ["M"] := by
  decide

/-- C3 (amended): for a registered sender, every relayed event equals the
client payload with `userId` and `userName` (and, for cursor and
selection events, `color`) replaced by the sender's registered identity
— forged identity fields never reach recipients and all other payload
fields are unchanged — and it is delivered to every member, other than
the sender, of the socket.io room named in the payload (not the sender's
current room), never to the sender itself. -/
theorem claim3_relay_stamps_identity (st : HubState) (sid : String)
    (user : ConnectedUser)
    (hu : mapGet st.connectedUsers sid = some user)
    (du : NoteUpdateData) (dc : CursorData) (ds : SelectionData)
    (dt : TypingData) (now : Nat) :
    (handleNoteUpdate st sid du now).2
        = (socketTo st.sioRooms du.noteId sid).map
            (fun x => (x, OutMsg.noteUpdate
              ⟨du.noteId, user.userId, user.userName, du.content,
               du.timestamp, du.cursor⟩))
    ∧ (handleCursorUpdate st sid dc).2
        = (socketTo st.sioRooms dc.noteId sid).map
            (fun x => (x, OutMsg.noteCursor
              { dc with userId := user.userId, userName := user.userName,
                        color := user.color }))
    ∧ (handleSelectionUpdate st sid ds).2
        = (socketTo st.sioRooms ds.noteId sid).map
            (fun x => (x, OutMsg.noteSelection
              { ds with userId := user.userId, userName := user.userName,
                        color := user.color }))
    ∧ (handleTypingIndicator st sid dt).2
        = (socketTo st.sioRooms dt.noteId sid).map
            (fun x => (x, OutMsg.userTyping
              { dt with userId := user.userId, userName := user.userName }))
    ∧ (∀ p ∈ (handleNoteUpdate st sid du now).2, p.1 ≠ sid)
    ∧ (∀ p ∈ (handleCursorUpdate st sid dc).2, p.1 ≠ sid)
    ∧ (∀ p ∈ (handleSelectionUpdate st sid ds).2, p.1 ≠ sid)
    ∧ (∀ p ∈ (handleTypingIndicator st sid dt).2, p.1 ≠ sid) := by
  refine ⟨?_, ?_, ?_, ?_, ?_, ?_, ?_, ?_⟩
  · simp [handleNoteUpdate, hu]
  · simp [handleCursorUpdate, hu]
  · simp [handleSelectionUpdate, hu]
  · simp [handleTypingIndicator, hu]
  · intro p hp
    simp only [handleNoteUpdate, hu] at hp
    obtain ⟨x, hx, rfl⟩ := List.mem_map.1 hp
    exact mem_socketTo _ _ _ _ hx
  · intro p hp
    simp only [handleCursorUpdate, hu] at hp
    obtain ⟨x, hx, rfl⟩ := List.mem_map.1 hp
    exact mem_socketTo _ _ _ _ hx
  · intro p hp
    simp only [handleSelectionUpdate, hu] at hp
    obtain ⟨x, hx, rfl⟩ := List.mem_map.1 hp
    exact mem_socketTo _ _ _ _ hx
  · intro p hp
    simp only [handleTypingIndicator, hu] at hp
    obtain ⟨x, hx, rfl⟩ := List.mem_map.1 hp
    exact mem_socketTo _ _ _ _ hx

/-- C3 witness: the amended stamping statement at a concrete state (a
forged `userId` is replaced by the sender's registered identity). -/
theorem claim3_witness :
    (handleNoteUpdate
        (⟨[("A", ⟨"A", "uA", "Alice", some "doc1", "#F00", 0⟩)],
          [("doc1", ["A", "B"])], [("doc1", ["A", "B"])]⟩ : HubState)
        "A" ⟨"doc1", "forged", "hi", 7, none⟩ 9).2
      = (socketTo [("doc1", ["A", "B"])] "doc1" "A").map
          (fun x => (x, OutMsg.noteUpdate
            ⟨"doc1", "uA", "Alice", "hi", 7, none⟩)) :=
  (claim3_relay_stamps_identity _ "A"
    ⟨"A", "uA", "Alice", some "doc1", "#F00", 0⟩ (by decide)
    ⟨"doc1", "forged", "hi", 7, none⟩
    ⟨"doc1", "x", "y", 0, "c"⟩
    ⟨"doc1", "x", "y", 0, 1, "c"⟩
    ⟨"doc1", "x", "y", true⟩ 9).1

/-- C4 counterexample: room "doc1" has members M1, M2; C joins. The
roster snapshot sent to C contains C's own identity tuple as well, not
"exactly the tuples of M1 and M2": the code adds C to the member set
before computing the snapshot. -/
theorem claim4_counterexample :
    (applyOp (runOps initState
        [ .authenticate "M1" "u1" "Mia" "#111" 0
        , .authenticate "M2" "u2" "Mo" "#222" 0
        , .join "M1" "doc1" 0
        , .join "M2" "doc1" 0
        , .authenticate "C" "uC" "Carol" "#333" 0 ])
        (.join "C" "doc1" 1)).2
      = [("M1", OutMsg.userJoined ⟨"uC", "Carol", "#333"⟩),
         ("M2", OutMsg.userJoined ⟨"uC", "Carol", "#333"⟩),
         ("C", OutMsg.noteUsers
            [⟨"u1", "Mia", "#111"⟩, ⟨"u2", "Mo", "#222"⟩,
             ⟨"uC", "Carol", "#333"⟩])] := by
  decide

/-- C4 (amended): when C joins room r whose member set is exactly
[m1, m2] (all with records, C not among them), the roster snapshot sent
to C contains exactly the identity tuples of m1, m2 and of C itself — the
joiner is included because the member set is updated before the snapshot
is computed. -/
theorem claim4_snapshot_includes_joiner (st : HubState) (c r : String)
    (now : Nat) (m1 m2 : String) (u1 u2 uc : ConnectedUser)
    (hm : membersOf st r = [m1, m2])
    (h1 : mapGet st.connectedUsers m1 = some u1)
    (h2 : mapGet st.connectedUsers m2 = some u2)
    (hc : mapGet st.connectedUsers c = some uc)
    (hc1 : c ≠ m1) (hc2 : c ≠ m2) :
    (c, OutMsg.noteUsers
       [⟨u1.userId, u1.userName, u1.color⟩,
        ⟨u2.userId, u2.userName, u2.color⟩,
        ⟨uc.userId, uc.userName, uc.color⟩])
      ∈ (handleNoteJoin st c r now).2 := by
  have hsend := join_self_send st c r now uc hc
  rw [join_roster st c r now uc hc, hm] at hsend
  have hadd : setAdd [m1, m2] c = [m1, m2, c] := by
    unfold setAdd
    rw [if_neg]
    · rfl
    · simp [hc1, hc2]
  rw [hadd] at hsend
  have g1 : mapGet (mapSet st.connectedUsers c
      { uc with noteId := some r, lastActivity := now }) m1 = some u1 := by
    rw [mapGet_mapSet_ne _ _ _ _ (Ne.symm hc1)]
    exact h1
  have g2 : mapGet (mapSet st.connectedUsers c
      { uc with noteId := some r, lastActivity := now }) m2 = some u2 := by
    rw [mapGet_mapSet_ne _ _ _ _ (Ne.symm hc2)]
    exact h2
  have hl : rosterLoop (mapSet st.connectedUsers c
      { uc with noteId := some r, lastActivity := now }) [m1, m2, c]
      = [⟨u1.userId, u1.userName, u1.color⟩,
         ⟨u2.userId, u2.userName, u2.color⟩,
         ⟨uc.userId, uc.userName, uc.color⟩] := by
    simp [rosterLoop, g1, g2, mapGet_mapSet_self]
  rw [hl] at hsend
  exact hsend

/-- C4 witness: the amended snapshot statement at the concrete scenario. -/
theorem claim4_witness :
    ("C", OutMsg.noteUsers
       [⟨"u1", "Mia", "#111"⟩, ⟨"u2", "Mo", "#222"⟩,
        ⟨"uC", "Carol", "#333"⟩])
      ∈ (handleNoteJoin (runOps initState
          [ .authenticate "M1" "u1" "Mia" "#111" 0
          , .authenticate "M2" "u2" "Mo" "#222" 0
          , .join "M1" "doc1" 0
          , .join "M2" "doc1" 0
          , .authenticate "C" "uC" "Carol" "#333" 0 ]) "C" "doc1" 1).2 :=
  claim4_snapshot_includes_joiner _ "C" "doc1" 1 "M1" "M2"
    ⟨"M1", "u1", "Mia", some "doc1", "#111", 0⟩
    ⟨"M2", "u2", "Mo", some "doc1", "#222", 0⟩
    ⟨"C", "uC", "Carol", none, "#333", 0⟩
    (by decide) (by decide) (by decide) (by decide) (by decide) (by decide)

/-- C5 counterexample: C is registered with no current room; M is a member
of "doc2". C relays an update naming "doc2" and M receives it — the event
is not dropped, contradicting the claim that relays from a connection
with no current room are dropped silently. -/
theorem claim5_counterexample :
    (mapGet (runOps initState
        [ .authenticate "M" "uM" "Max" "#444" 0
        , .join "M" "doc2" 0
        , .authenticate "C" "uC" "Carol" "#333" 0 ]).connectedUsers
          "C").map ConnectedUser.noteId = some none
    ∧ (applyOp (runOps initState
        [ .authenticate "M" "uM" "Max" "#444" 0
        , .join "M" "doc2" 0
        , .authenticate "C" "uC" "Carol" "#333" 0 ])
        (.update "C" ⟨"doc2", "forged", "hello", 5, none⟩ 9)).2
      = [("M", OutMsg.noteUpdate
          ⟨"doc2", "uC", "Carol", "hello", 5, none⟩)] := by
  decide

/-- C5 (amended): a relay is dropped silently only when the sender has no
record in the connection table (is unauthenticated): then no message is
sent and the hub state is unchanged, for all four event kinds. A
registered sender's events are relayed to the payload-named socket.io
room regardless of the sender's current room or membership. -/
theorem claim5_unregistered_relay_dropped (st : HubState) (sid : String)
    (hu : mapGet st.connectedUsers sid = none)
    (du : NoteUpdateData) (dc : CursorData) (ds : SelectionData)
    (dt : TypingData) (now : Nat) :
    handleNoteUpdate st sid du now = (st, [])
    ∧ handleCursorUpdate st sid dc = (st, [])
    ∧ handleSelectionUpdate st sid ds = (st, [])
    ∧ handleTypingIndicator st sid dt = (st, []) := by
  refine ⟨?_, ?_, ?_, ?_⟩
  · simp [handleNoteUpdate, hu]
  · simp [handleCursorUpdate, hu]
  · simp [handleSelectionUpdate, hu]
  · simp [handleTypingIndicator, hu]

/-- C5 witness: the amended statement at a concrete unregistered sender. -/
theorem claim5_witness :
    handleNoteUpdate initState "ghost" ⟨"doc1", "x", "hi", 1, none⟩ 2
      = (initState, []) :=
  (claim5_unregistered_relay_dropped initState "ghost" (by decide)
    ⟨"doc1", "x", "hi", 1, none⟩
    ⟨"doc1", "x", "y", 0, "c"⟩
    ⟨"doc1", "x", "y", 0, 1, "c"⟩
    ⟨"doc1", "x", "y", true⟩ 2).1

/-- C6 counterexample: A and B are in "doc1"; A is idle beyond the
threshold. The sweep deletes A's record and membership, but sends no
message at all — the remaining member B receives no member-left
notification, contradicting "performs the same cleanup as disconnect". -/
theorem claim6_counterexample :
    (applyOp (runOps initState
        [ .authenticate "A" "uA" "Alice" "#F00" 0
        , .authenticate "B" "uB" "Bob" "#0F0" 100
        , .join "A" "doc1" 0
        , .join "B" "doc1" 100 ]) (.sweep 10 50)).2 = []
    ∧ mapGet (applyOp (runOps initState
        [ .authenticate "A" "uA" "Alice" "#F00" 0
        , .authenticate "B" "uB" "Bob" "#0F0" 100
        , .join "A" "doc1" 0
        , .join "B" "doc1" 100 ]) (.sweep 10 50)).1.connectedUsers "A"
      = none
    ∧ "A" ∉ membersOf (applyOp (runOps initState
        [ .authenticate "A" "uA" "Alice" "#F00" 0
        , .authenticate "B" "uB" "Bob" "#0F0" 100
        , .join "A" "doc1" 0
        , .join "B" "doc1" 100 ]) (.sweep 10 50)).1 "doc1"
    ∧ "B" ∈ membersOf (applyOp (runOps initState
        [ .authenticate "A" "uA" "Alice" "#F00" 0
        , .authenticate "B" "uB" "Bob" "#0F0" 100
        , .join "A" "doc1" 0
        , .join "B" "doc1" 100 ]) (.sweep 10 50)).1 "doc1" := by
  decide

/-- C6 (amended): for every connection whose last-activity age exceeds
the threshold, the sweep deletes its record from the connection table and
removes it from its current room's member set provided the room
identifier is non-empty — the JS-truthiness guard `if (user.noteId)`
skips the member-set removal when the current room is the empty string,
whose member set the sweep never touches — and, unlike disconnect, it
sends no member-left notification to anyone (it emits no messages at
all). -/
theorem claim6_sweep_cleans_without_notifying (st : HubState)
    (T now : Nat) (sid : String) (user : ConnectedUser)
    (hu : mapGet st.connectedUsers sid = some user)
    (hidle : T < now - user.lastActivity) :
    mapGet (cleanupInactiveConnections st T now).connectedUsers sid = none
    ∧ (∀ nid, user.noteId = some nid → nid ≠ "" →
        sid ∉ membersOf (cleanupInactiveConnections st T now) nid)
    ∧ membersOf (cleanupInactiveConnections st T now) ""
        = membersOf st ""
    ∧ (applyOp st (.sweep T now)).2 = [] := by
  have h := cleanup_fold_removes now T sid user hidle st.connectedUsers st hu
  exact ⟨h.1, h.2, cleanup_fold_room_empty now T st.connectedUsers st, rfl⟩

/-- C6 witness: the amended sweep statement at the concrete scenario. -/
theorem claim6_witness :
    mapGet (cleanupInactiveConnections (runOps initState
        [ .authenticate "A" "uA" "Alice" "#F00" 0
        , .authenticate "B" "uB" "Bob" "#0F0" 100
        , .join "A" "doc1" 0
        , .join "B" "doc1" 100 ]) 10 50).connectedUsers "A" = none :=
  (claim6_sweep_cleans_without_notifying _ 10 50 "A"
    ⟨"A", "uA", "Alice", some "doc1", "#F00", 0⟩
    (by decide) (by decide)).1

/-- C7 counterexample: after the last member leaves "doc1", the room
table still contains an entry for "doc1" with an empty member set — the
entry is not absent as the claim states. -/
theorem claim7_counterexample :
    mapGet (runOps initState
        [ .authenticate "A" "uA" "Alice" "#F00" 0
        , .join "A" "doc1" 0
        , .leave "A" "doc1" ]).noteRooms "doc1" = some [] := by
  decide

/-- C7 (amended): room entries are never removed from the room table by
any operation: once a room has an entry (created on first join), the
entry persists — when the last member leaves, the entry remains with an
empty member set rather than being deleted. -/
theorem claim7_room_entry_persists (st : HubState) (op : HubOp)
    (r : String) (h : (mapGet st.noteRooms r).isSome = true) :
    (mapGet ((applyOp st op).1).noteRooms r).isSome = true := by
  cases op with
  | authenticate sid uid un color now => exact h
  | join sid nid now =>
      cases hu : mapGet st.connectedUsers sid with
      | none =>
          have hst : (applyOp st (.join sid nid now)).1 = st := by
            simp [applyOp, handleNoteJoin, hu]
          rw [hst]
          exact h
      | some user =>
          simp only [applyOp, handleNoteJoin, hu]
          by_cases hq : (mapGet st.noteRooms nid).isSome
          · simp only [if_pos hq]
            exact isSome_mapGet_mapSet _ _ _ _ h
          · simp only [if_neg hq]
            exact isSome_mapGet_mapSet _ _ _ _
              (isSome_mapGet_mapSet _ _ _ _ h)
  | leave sid nid =>
      cases hu : mapGet st.connectedUsers sid with
      | none =>
          have hst : (applyOp st (.leave sid nid)).1 = st := by
            simp [applyOp, handleNoteLeave, hu]
          rw [hst]
          exact h
      | some user =>
          simp only [applyOp, handleNoteLeave, hu]
          cases hg : mapGet st.noteRooms nid with
          | none => exact h
          | some s => exact isSome_mapGet_mapSet _ _ _ _ h
  | update sid d now =>
      have hro : (applyOp st (.update sid d now)).1.noteRooms
          = st.noteRooms := by
        cases hu : mapGet st.connectedUsers sid <;>
          simp [applyOp, handleNoteUpdate, hu]
      rw [hro]
      exact h
  | cursor sid d =>
      have hro : (applyOp st (.cursor sid d)).1.noteRooms = st.noteRooms := by
        cases hu : mapGet st.connectedUsers sid <;>
          simp [applyOp, handleCursorUpdate, hu]
      rw [hro]
      exact h
  | selection sid d =>
      have hro : (applyOp st (.selection sid d)).1.noteRooms
          = st.noteRooms := by
        cases hu : mapGet st.connectedUsers sid <;>
          simp [applyOp, handleSelectionUpdate, hu]
      rw [hro]
      exact h
  | typing sid d =>
      have hro : (applyOp st (.typing sid d)).1.noteRooms = st.noteRooms := by
        cases hu : mapGet st.connectedUsers sid <;>
          simp [applyOp, handleTypingIndicator, hu]
      rw [hro]
      exact h
  | activity sid now =>
      have hro : (applyOp st (.activity sid now)).1.noteRooms
          = st.noteRooms := by
        cases hu : mapGet st.connectedUsers sid <;>
          simp [applyOp, handleUserActivity, hu]
      rw [hro]
      exact h
  | disconnect sid =>
      cases hu : mapGet st.connectedUsers sid with
      | none =>
          have hro := disconnect_rooms_of_none st sid hu
          simp only [applyOp]
          rw [hro]
          exact h
      | some user =>
          cases hn : user.noteId with
          | none =>
              have hro := disconnect_rooms_of_no_room st sid user hu hn
              simp only [applyOp]
              rw [hro]
              exact h
          | some nid =>
              by_cases he : nid = ""
              · simp only [applyOp, handleDisconnect, hu, hn, if_pos he]
                exact h
              · simp only [applyOp, handleDisconnect, hu, hn, if_neg he]
                cases hg : mapGet st.noteRooms nid with
                | none => exact h
                | some s => exact isSome_mapGet_mapSet _ _ _ _ h
  | sweep T now =>
      exact cleanup_fold_rooms_isSome now T r st.connectedUsers st h

/-- C7 witness: the amended persistence statement at the concrete
counterexample scenario (the entry survives the last leave). -/
theorem claim7_witness :
    (mapGet ((applyOp (runOps initState
        [ .authenticate "A" "uA" "Alice" "#F00" 0
        , .join "A" "doc1" 0 ]) (.leave "A" "doc1")).1).noteRooms
      "doc1").isSome = true :=
  claim7_room_entry_persists _ (.leave "A" "doc1") "doc1" (by decide)

/-- C8 counterexample: A (a member of "doc1") calls leave for "doc2",
which it is not a member of. This is not a silent no-op: "doc2"'s member
B receives a `user:left` for A, and A's current-room field is cleared. -/
theorem claim8_counterexample :
    "A" ∉ membersOf (runOps initState
        [ .authenticate "A" "uA" "Alice" "#F00" 0
        , .authenticate "B" "uB" "Bob" "#0F0" 0
        , .join "A" "doc1" 0
        , .join "B" "doc2" 0 ]) "doc2"
    ∧ (applyOp (runOps initState
        [ .authenticate "A" "uA" "Alice" "#F00" 0
        , .authenticate "B" "uB" "Bob" "#0F0" 0
        , .join "A" "doc1" 0
        , .join "B" "doc2" 0 ]) (.leave "A" "doc2")).2
      = [("B", OutMsg.userLeft "uA" "Alice")]
    ∧ mapGet (applyOp (runOps initState
        [ .authenticate "A" "uA" "Alice" "#F00" 0
        , .authenticate "B" "uB" "Bob" "#0F0" 0
        , .join "A" "doc1" 0
        , .join "B" "doc2" 0 ]) (.leave "A" "doc2")).1.connectedUsers "A"
      = some ⟨"A", "uA", "Alice", none, "#F00", 0⟩ := by
  decide

/-- C8 (amended): when a registered connection leaves a room it is not a
member of, the room table's member sets are unchanged and no record is
deleted, but the connection's current-room field is cleared and a
member-left notification for it is sent to the members of the named
socket.io room (minus the sender) — the operation is not a silent no-op. -/
theorem claim8_leave_nonmember_effects (st : HubState) (sid r : String)
    (user : ConnectedUser)
    (hu : mapGet st.connectedUsers sid = some user)
    (hnm : sid ∉ membersOf st r) :
    (handleNoteLeave st sid r).1.noteRooms = st.noteRooms
    ∧ mapGet (handleNoteLeave st sid r).1.connectedUsers sid
        = some { user with noteId := none }
    ∧ (∀ sid', sid' ≠ sid →
        mapGet (handleNoteLeave st sid r).1.connectedUsers sid'
          = mapGet st.connectedUsers sid')
    ∧ (handleNoteLeave st sid r).2
        = (socketTo (sioLeave st.sioRooms r sid) r sid).map
            (fun x => (x, OutMsg.userLeft user.userId user.userName)) := by
  refine ⟨leave_rooms_of_not_mem st sid r user hu hnm, ?_, ?_,
    leave_sends st sid r user hu⟩
  · rw [leave_users st sid r user hu, mapGet_mapSet_self]
  · intro sid' hs
    rw [leave_users st sid r user hu, mapGet_mapSet_ne _ _ _ _ hs]

/-- C8 witness: the amended statement at the concrete counterexample
scenario (the member sets survive the bogus leave unchanged). -/
theorem claim8_witness :
    (handleNoteLeave (runOps initState
        [ .authenticate "A" "uA" "Alice" "#F00" 0
        , .authenticate "B" "uB" "Bob" "#0F0" 0
        , .join "A" "doc1" 0
        , .join "B" "doc2" 0 ]) "A" "doc2").1.noteRooms
      = (runOps initState
        [ .authenticate "A" "uA" "Alice" "#F00" 0
        , .authenticate "B" "uB" "Bob" "#0F0" 0
        , .join "A" "doc1" 0
        , .join "B" "doc2" 0 ]).noteRooms :=
  (claim8_leave_nonmember_effects _ "A" "doc2"
    ⟨"A", "uA", "Alice", some "doc1", "#F00", 0⟩
    (by decide) (by decide)).1

/-- C9: disconnect is idempotent — after one disconnect of a connection,
a second disconnect of the same connection leaves the state exactly as it
was and sends no notifications, so the side effects of leaving happen at
most once. -/
theorem claim9_disconnect_idempotent (st : HubState) (sid : String) :
    applyOp (applyOp st (.disconnect sid)).1 (.disconnect sid)
      = ((applyOp st (.disconnect sid)).1, []) := by
  have hnone : mapGet (applyOp st (.disconnect sid)).1.connectedUsers sid
      = none := by
    show mapGet (handleDisconnect st sid).1.connectedUsers sid = none
    rw [disconnect_users]
    exact mapGet_mapDelete_self _ _
  have hsio : (applyOp st (.disconnect sid)).1.sioRooms
      = sioLeaveAll st.sioRooms sid := disconnect_sio st sid
  show handleDisconnect (applyOp st (.disconnect sid)).1 sid
    = ((applyOp st (.disconnect sid)).1, [])
  simp only [handleDisconnect, hnone]
  rw [mapDelete_of_get_none _ _ hnone, hsio, sioLeaveAll_idem, ← hsio]

/-- C10: the roster computation is total and never produces a partial
entry: an absent room yields the empty roster; each member with a record
contributes exactly one `{userId, userName, color}` tuple; members
without a record are silently skipped; and `getUsersInNote` is exactly
the member list filtered through the connection table. -/
theorem claim10_roster_total (st : HubState) (nid : String) :
    (mapGet st.noteRooms nid = none →
      getActiveUsersInNote st nid = [] ∧ getUsersInNote st nid = [])
    ∧ (getActiveUsersInNote st nid).length
        = ((membersOf st nid).filter
            (fun sid => (mapGet st.connectedUsers sid).isSome)).length
    ∧ (∀ sid ∈ membersOf st nid, ∀ u,
        mapGet st.connectedUsers sid = some u →
        (⟨u.userId, u.userName, u.color⟩ : ActiveUser)
          ∈ getActiveUsersInNote st nid)
    ∧ (∀ a ∈ getActiveUsersInNote st nid, ∃ sid ∈ membersOf st nid, ∃ u,
        mapGet st.connectedUsers sid = some u
        ∧ a = (⟨u.userId, u.userName, u.color⟩ : ActiveUser))
    ∧ getUsersInNote st nid
        = (membersOf st nid).filterMap
            (fun sid => mapGet st.connectedUsers sid) := by
  refine ⟨?_, rosterLoop_length _ _,
    fun sid hs u hu => rosterLoop_mem_of _ _ sid u hs hu,
    rosterLoop_mem_inv _ _, map_get_reduceOption _ _⟩
  intro h
  constructor
  · unfold getActiveUsersInNote membersOf
    rw [h]
    rfl
  · unfold getUsersInNote membersOf
    rw [h]
    rfl

/-- C10 witness: the roster statement evaluated at a concrete absent
room. -/
theorem claim10_witness :
    getActiveUsersInNote initState "doc1" = [] :=
  ((claim10_roster_total initState "doc1").1 rfl).1

end NotesApp
